import Mathlib

/-
Verification development for the KerrP2P image-finding pipeline
(src/Utils.h, src/Pybind.cpp).

Shallow embedding conventions:
  * the C++ `Real` scalar (a floating-point type with a quiet-NaN sentinel)
    is embedded as `RVal`: either a NaN sentinel or an exact rational.
    Comparisons involving NaN are false and arithmetic propagates NaN,
    mirroring IEEE semantics at the level the code relies on.
  * `sin` (transcendental) is kept abstract: every definition that needs it
    takes a function `rsinq : ℚ → ℚ`; likewise the constant `two_pi` is an
    abstract parameter `tp : ℚ`.
  * the external forward-ray-tracing oracle (ForwardRayTracing.h, out of
    scope per the spec) is a parameter `oracle : FRTParams → FRTResult`
    combining `rc_d_to_lambda_q` + `calc_ray` + `to_result`.
  * the external Broyden solver (Broyden.h) is a parameter
    `solver : Solver` mapping a residual function and a start point to the
    final point, consumed as a black box exactly as the code does.
  * TBB parallel loops write disjoint cells; the embedding uses the
    deterministic sequential (row-major) order, which clause 5 of the spec
    identifies as the canonical semantics of those loops.
-/

/-- Ray validity status, after the enum exposed in src/Pybind.cpp together
with the `ARGUMENT_ERROR` member referenced at src/Utils.h:117. -/
inductive RayStatus where
  | NORMAL
  | CONFINED
  | ETA_OUT_OF_RANGE
  | THETA_OUT_OF_RANGE
  | ARGUMENT_ERROR
  | UNKOWN_ERROR
deriving DecidableEq, Repr

/-- Modelled from the spec: `ray_status_to_str` (Common.h, not under src/) is
only used to build human-readable failure strings; it renders each status by
its name. -/
def rayStatusToStr : RayStatus → String
  | RayStatus.NORMAL => "NORMAL"
  | RayStatus.CONFINED => "CONFINED"
  | RayStatus.ETA_OUT_OF_RANGE => "ETA_OUT_OF_RANGE"
  | RayStatus.THETA_OUT_OF_RANGE => "THETA_OUT_OF_RANGE"
  | RayStatus.ARGUMENT_ERROR => "ARGUMENT_ERROR"
  | RayStatus.UNKOWN_ERROR => "UNKOWN_ERROR"

/-- a floating-point scalar: NaN sentinel or a finite (exact rational) value. -/
inductive RVal where
  | nan : RVal
  | fin : ℚ → RVal
deriving DecidableEq, Repr

/-- `isnan` test. -/
def risnan : RVal → Bool
  | RVal.nan => true
  | RVal.fin _ => false

/-- strict `<` with IEEE semantics: any comparison with NaN is false. -/
def rlt : RVal → RVal → Bool
  | RVal.fin a, RVal.fin b => decide (a < b)
  | _, _ => false

/-- `<=` with IEEE semantics: any comparison with NaN is false. -/
def rle : RVal → RVal → Bool
  | RVal.fin a, RVal.fin b => decide (a ≤ b)
  | _, _ => false

/-- subtraction, NaN-propagating. -/
def rsub : RVal → RVal → RVal
  | RVal.fin a, RVal.fin b => RVal.fin (a - b)
  | _, _ => RVal.nan

/-- multiplication, NaN-propagating (the code never multiplies 0 by an
infinity, so plain NaN propagation is faithful). -/
def rmul : RVal → RVal → RVal
  | RVal.fin a, RVal.fin b => RVal.fin (a * b)
  | _, _ => RVal.nan

/-- division, NaN-propagating; division by zero is mapped to NaN (the code
only divides by the positive constant `two_pi`, so this case is never
exercised on the paths modelled here). -/
def rdiv : RVal → RVal → RVal
  | RVal.fin a, RVal.fin b => if b = 0 then RVal.nan else RVal.fin (a / b)
  | _, _ => RVal.nan

/-- absolute value, NaN-propagating. -/
def rabs : RVal → RVal
  | RVal.nan => RVal.nan
  | RVal.fin a => RVal.fin |a|

/-- lift a rational function over finite values, NaN-propagating; used for
the abstract `sin` and for precision casts. -/
def RVal.map (f : ℚ → ℚ) : RVal → RVal
  | RVal.nan => RVal.nan
  | RVal.fin a => RVal.fin (f a)

/-- `sin` applied to a scalar, through the abstract rational model `rsinq`
of the transcendental sine. -/
def rsin (rsinq : ℚ → ℚ) : RVal → RVal := RVal.map rsinq

/-- the sign function of src/Utils.h:143-147: `(T(0) < val) - (val < T(0))`.
Note `sgn(NaN) = 0` since both comparisons are false on NaN. -/
def rsgn (v : RVal) : Int :=
  (if rlt (RVal.fin 0) v then 1 else 0) - (if rlt v (RVal.fin 0) then 1 else 0)

/-- Modelled from the spec: `MY_FLOOR<T>::convert` (Common.h, not under
src/) is the floor-to-integer conversion; the in-source comment at
src/Utils.h:149 ("move phi to [0, 2pi)") requires mathematical floor
semantics.  On the NaN sentinel (never reached on the modelled paths) it
returns 0. -/
def rfloor : RVal → Int
  | RVal.nan => 0
  | RVal.fin a => ⌊a⌋

/-- azimuth wrapping of src/Utils.h:149-158: move `phi` into `[0, two_pi)`.
The scalar here is a plain rational because the callers only wrap finite
target angles. -/
def wrap_phi (tp : ℚ) (phi : ℚ) : ℚ :=
  if phi < 0 ∨ phi ≥ tp then phi - tp * ⌊phi / tp⌋ else phi

/-- parameters of a forward ray-tracing run, restricted to the fields
src/Utils.h reads or writes: the (rc, log|d|) impact-parameter encoding and
the distance sign.  The remaining physical parameters are fixed throughout
a sweep and are absorbed into the abstract oracle. -/
structure FRTParams where
  rc : RVal
  log_abs_d : RVal
  d_sign : Bool
deriving DecidableEq, Repr

/-- result of a forward ray-tracing run (`ForwardRayTracingResult`),
restricted to the fields src/Utils.h uses. -/
structure FRTResult where
  rc : RVal
  log_abs_d : RVal
  d_sign : Bool
  theta_f : RVal
  phi_f : RVal
  lambda : RVal
  eta : RVal
  ray_status : RayStatus
deriving DecidableEq, Repr

instance : Inhabited FRTResult :=
  ⟨{ rc := RVal.nan, log_abs_d := RVal.nan, d_sign := true, theta_f := RVal.nan,
     phi_f := RVal.nan, lambda := RVal.nan, eta := RVal.nan,
     ray_status := RayStatus.UNKOWN_ERROR }⟩

/-- the external oracle: `params.rc_d_to_lambda_q()` followed by
`ray_tracing->calc_ray(params)` and `to_result()`, as one pure function. -/
def Oracle : Type := FRTParams → FRTResult

/-- the external derivative-free solver (BroydenDF): from a residual
function and a start point to the final point, a black box. -/
def Solver : Type := ((RVal × RVal) → (RVal × RVal)) → (RVal × RVal) → (RVal × RVal)

/-- `std::numeric_limits<int>::max()`, the sentinel selecting
"any period" mode in `find_root_period` (src/Utils.h:196-200). -/
def intMax : Int := 2147483647

/-- one call of `RootFunctor::operator()` (src/Utils.h:106-140): write the
point into the params, run the oracle; on a non-NORMAL status return the
NaN-sentinel residual, otherwise residual component 1 is `theta_f - theta_o`
and component 2 is `phi_f - phi_o - period*two_pi` when the period is fixed,
else `sin((phi_f - phi_o) * (1/2))`.  Returns the residual together with
the oracle output (the `ray_tracing` state the caller inspects). -/
def rootFunctorCall (oracle : Oracle) (rsinq : ℚ → ℚ) (tp : ℚ)
    (params : FRTParams) (fixedPeriod : Bool) (period : Int)
    (theta_o phi_o : ℚ) (x : RVal × RVal) : (RVal × RVal) × FRTResult :=
  let out := oracle { params with rc := x.1, log_abs_d := x.2 }
  if out.ray_status ≠ RayStatus.NORMAL then
    ((RVal.nan, RVal.nan), out)
  else
    let r0 := rsub out.theta_f (RVal.fin theta_o)
    let r1 :=
      if fixedPeriod then
        rsub (rsub out.phi_f (RVal.fin phi_o)) (rmul (RVal.fin (period : ℚ)) (RVal.fin tp))
      else
        rsin rsinq (rmul (rsub out.phi_f (RVal.fin phi_o)) (RVal.fin (1 / 2)))
    ((r0, r1), out)

/-- the comparison `residual.norm() > tol` of src/Utils.h:219, with the
square root eliminated: for finite components, `sqrt(a^2+b^2) > tol` iff
`tol < 0` or `tol^2 < a^2+b^2`; if a component is NaN the norm is NaN and
the comparison is false. -/
def rnormGt (a b : RVal) (tol : ℚ) : Bool :=
  match a, b with
  | RVal.fin x, RVal.fin y => decide (tol < 0 ∨ tol * tol < x * x + y * y)
  | _, _ => false

/-- outcome of `find_root` / `find_root_period` (src/Utils.h:60-66). -/
structure FindRootResult where
  success : Bool
  fail_reason : String
  root : Option FRTResult
deriving DecidableEq, Repr

/-- the final point the solver returns inside `find_root_period`
(src/Utils.h:193-207): start from `(params.rc, params.log_abs_d)` and run
the black-box solver on the residual function. -/
def frpFinalX (oracle : Oracle) (rsinq : ℚ → ℚ) (tp : ℚ) (solver : Solver)
    (params : FRTParams) (fixedPeriod : Bool) (period : Int)
    (theta_o phi_o : ℚ) : RVal × RVal :=
  solver (fun v => (rootFunctorCall oracle rsinq tp params fixedPeriod period theta_o phi_o v).1)
    (params.rc, params.log_abs_d)

/-- `find_root_period` (src/Utils.h:187-235): wrap the target azimuth, run
the solver, re-evaluate the residual at the final point, then either report
a structured failure (non-NORMAL status, or residual norm above tolerance)
or return the traced result with the final point written into its
`rc`/`log_abs_d` coordinates. -/
def find_root_period (oracle : Oracle) (rsinq : ℚ → ℚ) (tp : ℚ) (solver : Solver)
    (params : FRTParams) (period : Int) (theta_o phi_o : ℚ) (tol : ℚ) : FindRootResult :=
  let phi_o' := wrap_phi tp phi_o
  let fixedPeriod : Bool := period != intMax
  let x := frpFinalX oracle rsinq tp solver params fixedPeriod period theta_o phi_o'
  let last := rootFunctorCall oracle rsinq tp params fixedPeriod period theta_o phi_o' x
  let residual := last.1
  let out := last.2
  if out.ray_status ≠ RayStatus.NORMAL then
    { success := false, fail_reason := "ray status: " ++ rayStatusToStr out.ray_status,
      root := none }
  else if rnormGt residual.1 residual.2 tol then
    { success := false, fail_reason := "residual > threshold", root := none }
  else
    { success := true, fail_reason := "",
      root := some { out with rc := x.1, log_abs_d := x.2, d_sign := params.d_sign } }

/-- `find_root` (src/Utils.h:237-242): wrap the azimuth and delegate to
`find_root_period` with the `intMax` sentinel (which wraps once more,
harmlessly). -/
def find_root (oracle : Oracle) (rsinq : ℚ → ℚ) (tp : ℚ) (solver : Solver)
    (params : FRTParams) (theta_o phi_o : ℚ) (tol : ℚ) : FindRootResult :=
  let phi_o' := wrap_phi tp phi_o
  find_root_period oracle rsinq tp solver params intMax theta_o phi_o' tol

/-- `calc_ray` (src/Utils.h:163-168): a single pooled oracle evaluation. -/
def calc_ray (oracle : Oracle) (params : FRTParams) : FRTResult := oracle params

/-- `calc_ray_batch` (src/Utils.h:170-185), sequential semantics: the
result vector has one entry per input, in input order. -/
def calc_ray_batch (oracle : Oracle) (params_list : List FRTParams) : List FRTResult :=
  params_list.map (calc_ray oracle)

/-- one chunk of the `tbb::parallel_for` in `calc_ray_batch`: write
`results[i] = calc_ray(params_list[i])` for every index of the half-open
range `c`, leaving other slots of the result array untouched. -/
def writeChunk (oracle : Oracle) (params_list : List FRTParams)
    (acc : ℕ → Option FRTResult) (c : ℕ × ℕ) : ℕ → Option FRTResult :=
  fun k => if c.1 ≤ k ∧ k < c.2 then (params_list[k]?).map (calc_ray oracle) else acc k

/-- the parallel execution of `calc_ray_batch` under an arbitrary
partition of the index space into chunks, processed in an arbitrary
order: fold the chunk writes over an initially empty result array. -/
def runChunks (oracle : Oracle) (params_list : List FRTParams)
    (chunks : List (ℕ × ℕ)) : ℕ → Option FRTResult :=
  chunks.foldl (writeChunk oracle params_list) (fun _ => none)

/-- one grid cell of the sampling phase: the six cached fields
(θ, φ, Δθ, Δφ, λ, η) of src/Utils.h:320-335. -/
structure Cell where
  theta : RVal
  phi : RVal
  dth : RVal
  dph : RVal
  lambda : RVal
  eta : RVal
deriving DecidableEq, Repr

/-- the all-NaN cell stored for an invalid grid point. -/
def nanCell : Cell :=
  { theta := RVal.nan, phi := RVal.nan, dth := RVal.nan, dph := RVal.nan,
    lambda := RVal.nan, eta := RVal.nan }

/-- sampling of one grid point (src/Utils.h:314-335): evaluate the oracle
at `(rc, lgd)`; on NORMAL status cache θ, φ, Δθ = θ - θ_o,
Δφ = sin((φ - φ_o) * (1/2)), λ, η; otherwise store NaN in every field. -/
def sampleCell (oracle : Oracle) (rsinq : ℚ → ℚ) (params : FRTParams)
    (theta_o phi_o : ℚ) (rc lgd : ℚ) : Cell :=
  let out := oracle { params with rc := RVal.fin rc, log_abs_d := RVal.fin lgd }
  if out.ray_status = RayStatus.NORMAL then
    { theta := out.theta_f, phi := out.phi_f,
      dth := rsub out.theta_f (RVal.fin theta_o),
      dph := rsin rsinq (rmul (rsub out.phi_f (RVal.fin phi_o)) (RVal.fin (1 / 2))),
      lambda := out.lambda, eta := out.eta }
  else nanCell

/-- the whole sampled grid, row i = log-distance sample i, column j =
rc sample j (sequential row-major semantics of the parallel loop). -/
def sweepGrid (oracle : Oracle) (rsinq : ℚ → ℚ) (params : FRTParams)
    (theta_o phi_o : ℚ) (rc_list lgd_list : List ℚ) : List (List Cell) :=
  lgd_list.map (fun lgd => rc_list.map (fun rc =>
    sampleCell oracle rsinq params theta_o phi_o rc lgd))

/-- matrix entry access; out-of-range indices yield the NaN default (the
code never reads out of range: loop bounds keep indices inside the grid). -/
def mget (m : List (List RVal)) (i j : ℕ) : RVal := (m.getD i []).getD j RVal.nan

/-- the Δθ sign-change test of src/Utils.h:353-360 at interior cell (i,j). -/
def isThetaCand (dth : List (List RVal)) (i j : ℕ) : Bool :=
  let d_row := rsgn (mget dth i j) * rsgn (mget dth i (j - 1))
  let d_col := rsgn (mget dth i j) * rsgn (mget dth (i - 1) j)
  !(risnan (mget dth i j)) && !(risnan (mget dth i (j - 1))) &&
    !(risnan (mget dth (i - 1) j)) && (decide (d_row ≤ 0) || decide (d_col ≤ 0))

/-- the Δφ sign-change test of src/Utils.h:361-373 at interior cell (i,j),
with the λ branch-continuity constraint. -/
def isPhiCand (dph lam : List (List RVal)) (i j : ℕ) : Bool :=
  let d_row := rsgn (mget dph i j) * rsgn (mget dph i (j - 1))
  let d_col := rsgn (mget dph i j) * rsgn (mget dph (i - 1) j)
  let d_row_lambda := rsgn (mget lam i j) * rsgn (mget lam i (j - 1))
  let d_col_lambda := rsgn (mget lam i j) * rsgn (mget lam (i - 1) j)
  !(risnan (mget dph i j)) && !(risnan (mget dph i (j - 1))) &&
    !(risnan (mget dph (i - 1) j)) &&
    !(risnan (mget lam i j)) && !(risnan (mget lam i (j - 1))) &&
    !(risnan (mget lam (i - 1) j)) &&
    decide (d_row_lambda > 0) && decide (d_col_lambda > 0) &&
    (decide (d_row ≤ 0) || decide (d_col ≤ 0))

/-- θ-candidate grid coordinates, row-major over the interior cells
(rows 1..lgd_size-1, columns 1..rc_size-1), as collected at
src/Utils.h:345-360. -/
def thetaRootsIdx (dth : List (List RVal)) (nr nc : ℕ) : List (ℕ × ℕ) :=
  (List.range' 1 (nr - 1)).flatMap (fun i =>
    (List.range' 1 (nc - 1)).filterMap (fun j =>
      if isThetaCand dth i j then some (i, j) else none))

/-- φ-candidate grid coordinates (src/Utils.h:361-373). -/
def phiRootsIdx (dph lam : List (List RVal)) (nr nc : ℕ) : List (ℕ × ℕ) :=
  (List.range' 1 (nr - 1)).flatMap (fun i =>
    (List.range' 1 (nc - 1)).filterMap (fun j =>
      if isPhiCand dph lam i j then some (i, j) else none))

/-- squared grid distance between two integer grid points; the r-tree
query of src/Utils.h:407-413 compares Euclidean distances, and comparing
squares is order-equivalent. -/
def gridDist2 (p q : ℕ × ℕ) : Int :=
  ((p.1 : Int) - (q.1 : Int)) ^ 2 + ((p.2 : Int) - (q.2 : Int)) ^ 2

/-- nearest φ-candidate to a θ-candidate (the `bgi::nearest(p, 1)` query;
ties are broken arbitrarily by the r-tree, here by first position). -/
def nearestPhi (phiIdx : List (ℕ × ℕ)) (p : ℕ × ℕ) : ℕ × ℕ :=
  match phiIdx with
  | [] => (0, 0)
  | h :: t => t.foldl (fun best x => if gridDist2 p x < gridDist2 p best then x else best) h

/-- the duplicate test of src/Utils.h:467-468: both coordinate differences
strictly below tolerance (false whenever a coordinate is NaN). -/
def isDup (tol : ℚ) (x y : FRTResult) : Bool :=
  rlt (rabs (rsub x.rc y.rc)) (RVal.fin tol) &&
    rlt (rabs (rsub x.log_abs_d y.log_abs_d)) (RVal.fin tol)

/-- the inner loop of the deduplication pass (src/Utils.h:465-472): scan
`j` upward from `i+1` and report the first duplicate of entry `i`
(the loop breaks at the first match). -/
def firstDupAfter (tol : ℚ) (l : List FRTResult) (i : ℕ) : Option ℕ :=
  (List.range' (i + 1) (l.length - (i + 1))).find? (fun j =>
    match l[i]?, l[j]? with
    | some x, some y => isDup tol x y
    | _, _ => false)

/-- `duplicated_index` (src/Utils.h:462-474): for each entry, the first
later duplicate if any, in entry order. -/
def duplicatedIndex (tol : ℚ) (l : List FRTResult) : List ℕ :=
  (List.range l.length).filterMap (firstDupAfter tol l)

/-- the erase loop of src/Utils.h:477-480: erase the listed positions from
the vector, last listed first (`foldr` applies the head last, so the
processing order is from the back of `ds`, exactly as the C++ loop). -/
def eraseLoop (l : List α) (ds : List ℕ) : List α :=
  ds.foldr (fun d acc => acc.eraseIdx d) l

/-- the full deduplication step (src/Utils.h:462-480): collect first-match
duplicates, sort the positions ascending (`std::sort`, rendered as an
insertion sort: on ℕ keys any ascending sort yields the same list), erase
them from the back. -/
def dedupResults (tol : ℚ) (l : List FRTResult) : List FRTResult :=
  eraseLoop l (List.insertionSort (· ≤ ·) (duplicatedIndex tol l))

/-- `SweepResult` (src/Utils.h:16-37): the six grids, the two candidate
point lists, the paired-candidate list, and the refined results. -/
structure SweepResult where
  theta : List (List RVal)
  phi : List (List RVal)
  lambda : List (List RVal)
  eta : List (List RVal)
  delta_theta : List (List RVal)
  delta_phi : List (List RVal)
  theta_roots : List (ℚ × ℚ)
  phi_roots : List (ℚ × ℚ)
  theta_roots_closest : List (ℚ × ℚ)
  results : List FRTResult
deriving DecidableEq, Repr

/-- `sweep_rc_d` (src/Utils.h:275-483): wrap the target azimuth, sample the
grid, isolate sign-change candidates, return early when a candidate family
is empty, pair each θ-candidate with its nearest φ-candidate, rank by
pairing distance, refine the best `cutoff` candidates through the solver,
and deduplicate the refined roots. -/
def sweep_rc_d (oracle : Oracle) (rsinq : ℚ → ℚ) (tp : ℚ) (solver : Solver)
    (params : FRTParams) (theta_o phi_o : ℚ) (rc_list lgd_list : List ℚ)
    (cutoff : ℕ) (tol : ℚ) : SweepResult :=
  let phi_o' := wrap_phi tp phi_o
  let grid := sweepGrid oracle rsinq params theta_o phi_o' rc_list lgd_list
  let thetaM := grid.map (fun row => row.map Cell.theta)
  let phiM := grid.map (fun row => row.map Cell.phi)
  let dthM := grid.map (fun row => row.map Cell.dth)
  let dphM := grid.map (fun row => row.map Cell.dph)
  let lamM := grid.map (fun row => row.map Cell.lambda)
  let etaM := grid.map (fun row => row.map Cell.eta)
  let tIdx := thetaRootsIdx dthM lgd_list.length rc_list.length
  let pIdx := phiRootsIdx dphM lamM lgd_list.length rc_list.length
  if tIdx.isEmpty && pIdx.isEmpty then
    { theta := thetaM, phi := phiM, lambda := lamM, eta := etaM,
      delta_theta := dthM, delta_phi := dphM,
      theta_roots := [], phi_roots := [], theta_roots_closest := [], results := [] }
  else
    let theta_roots := tIdx.map (fun ij => (rc_list.getD ij.2 0, lgd_list.getD ij.1 0))
    if pIdx.isEmpty then
      { theta := thetaM, phi := phiM, lambda := lamM, eta := etaM,
        delta_theta := dthM, delta_phi := dphM,
        theta_roots := theta_roots, phi_roots := [], theta_roots_closest := [],
        results := [] }
    else
      let phi_roots := pIdx.map (fun ij => (rc_list.getD ij.2 0, lgd_list.getD ij.1 0))
      let closestIdx := tIdx.map (nearestPhi pIdx)
      let dists := tIdx.map (fun p => gridDist2 p (nearestPhi pIdx p))
      let indices := List.insertionSort
        (fun i1 i2 => dists.getD i1 0 < dists.getD i2 0) (List.range tIdx.length)
      let theta_roots_closest := indices.map (fun k =>
        let ij := closestIdx.getD k (0, 0)
        (rc_list.getD ij.2 0, lgd_list.getD ij.1 0))
      let cutoff' := min cutoff indices.length
      let results0 := (List.range cutoff').filterMap (fun i =>
        let ij := closestIdx.getD (indices.getD i 0) (0, 0)
        let params' := { params with
                         rc := RVal.fin (rc_list.getD ij.2 0),
                         log_abs_d := RVal.fin (lgd_list.getD ij.1 0) }
        let period := rfloor (rdiv (mget phiM ij.1 ij.2) (RVal.fin tp))
        let rr := find_root_period oracle rsinq tp solver params' period theta_o phi_o' tol
        if rr.success then rr.root else none)
      { theta := thetaM, phi := phiM, lambda := lamM, eta := etaM,
        delta_theta := dthM, delta_phi := dphM,
        theta_roots := theta_roots, phi_roots := phi_roots,
        theta_roots_closest := theta_roots_closest,
        results := dedupResults tol results0 }

/-- Modelled from the spec: the result-level `get_low_prec` overload
(ForwardRayTracing.h, not under src/) casts every numeric field of a
refined result back to working precision and keeps the discrete fields. -/
def resultLowPrec (f : ℚ → ℚ) (r : FRTResult) : FRTResult :=
  { rc := r.rc.map f, log_abs_d := r.log_abs_d.map f, d_sign := r.d_sign,
    theta_f := r.theta_f.map f, phi_f := r.phi_f.map f,
    lambda := r.lambda.map f, eta := r.eta.map f, ray_status := r.ray_status }

/-- `get_low_prec` on a `SweepResult` (src/Utils.h:39-58): cast every
matrix, every point list and every refined result down with the precision
cast `f` (casting the NaN sentinel yields NaN, as for floating casts). -/
def get_low_prec (f : ℚ → ℚ) (x : SweepResult) : SweepResult :=
  { theta := x.theta.map (fun row => row.map (RVal.map f)),
    phi := x.phi.map (fun row => row.map (RVal.map f)),
    lambda := x.lambda.map (fun row => row.map (RVal.map f)),
    eta := x.eta.map (fun row => row.map (RVal.map f)),
    delta_theta := x.delta_theta.map (fun row => row.map (RVal.map f)),
    delta_phi := x.delta_phi.map (fun row => row.map (RVal.map f)),
    theta_roots := x.theta_roots.map (fun p => (f p.1, f p.2)),
    phi_roots := x.phi_roots.map (fun p => (f p.1, f p.2)),
    theta_roots_closest := x.theta_roots_closest.map (fun p => (f p.1, f p.2)),
    results := x.results.map (resultLowPrec f) }

/-- Modelled from the spec: `params.get_high_prec` (ForwardRayTracing.h,
not under src/) promotes every numeric field of the parameters with the
precision promotion `u` and keeps the discrete fields. -/
def paramsHighPrec (u : ℚ → ℚ) (p : FRTParams) : FRTParams :=
  { rc := p.rc.map u, log_abs_d := p.log_abs_d.map u, d_sign := p.d_sign }

/-- the element-by-element promotion loop of src/Utils.h:258-267:
`list_h[i] = list[i]` (an implicit precision cast) for every index. -/
def promoteList (u : ℚ → ℚ) (l : List ℚ) : List ℚ :=
  (List.range l.length).map (fun i => u (l.getD i 0))

/-- `sweep_rc_d_high` (src/Utils.h:248-273): promote the parameters, the
target angles, both grid lists and the tolerance to the higher precision
(promotion `u`), run `sweep_rc_d` at that precision (oracle `oracleH`,
sine `rsinqH`, two-pi constant `tpH`, solver `solverH`), and cast the
whole result down with `dcast`. -/
def sweep_rc_d_high (oracleH : Oracle) (rsinqH : ℚ → ℚ) (tpH : ℚ) (solverH : Solver)
    (u dcast : ℚ → ℚ) (params : FRTParams) (theta_o phi_o : ℚ)
    (rc_list lgd_list : List ℚ) (cutoff : ℕ) (tol : ℚ) : SweepResult :=
  let params_h := paramsHighPrec u params
  let theta_o_h := u theta_o
  let phi_o_h := u phi_o
  let rc_list_h := promoteList u rc_list
  let lgd_list_h := promoteList u lgd_list
  let tol_h := u tol
  get_low_prec dcast
    (sweep_rc_d oracleH rsinqH tpH solverH params_h theta_o_h phi_o_h rc_list_h
      lgd_list_h cutoff tol_h)

/-- the high-precision fallback as the spec words it (spec 4.5): promote
every numeric input (parameters, target angles, grid lists, tolerance) to
the higher precision, run the sweep engine unmodified at that precision,
and cast every output field of the resulting `SweepResult` back to working
precision: all six matrices, both candidate point lists, the
paired-candidate list, and each refined result. -/
def sweepHighPrecision_spec (oracleH : Oracle) (rsinqH : ℚ → ℚ) (tpH : ℚ)
    (solverH : Solver) (u dcast : ℚ → ℚ) (params : FRTParams) (theta_o phi_o : ℚ)
    (rc_list lgd_list : List ℚ) (cutoff : ℕ) (tol : ℚ) : SweepResult :=
  let r := sweep_rc_d oracleH rsinqH tpH solverH (paramsHighPrec u params)
    (u theta_o) (u phi_o) (rc_list.map u) (lgd_list.map u) cutoff (u tol)
  { theta := r.theta.map (fun row => row.map (RVal.map dcast)),
    phi := r.phi.map (fun row => row.map (RVal.map dcast)),
    lambda := r.lambda.map (fun row => row.map (RVal.map dcast)),
    eta := r.eta.map (fun row => row.map (RVal.map dcast)),
    delta_theta := r.delta_theta.map (fun row => row.map (RVal.map dcast)),
    delta_phi := r.delta_phi.map (fun row => row.map (RVal.map dcast)),
    theta_roots := r.theta_roots.map (fun p => (dcast p.1, dcast p.2)),
    phi_roots := r.phi_roots.map (fun p => (dcast p.1, dcast p.2)),
    theta_roots_closest := r.theta_roots_closest.map (fun p => (dcast p.1, dcast p.2)),
    results := r.results.map (resultLowPrec dcast) }

/-
Theorems.  Each claim of the specification is settled by one theorem below;
helper lemmas are shared.
-/

lemma wrap_phi_sub_floor (tp phi : ℚ) (h : 0 < tp) :
    phi - tp * ⌊phi / tp⌋ = tp * Int.fract (phi / tp) := by
  have htp : tp ≠ 0 := ne_of_gt h
  rw [Int.fract]
  field_simp

lemma wrap_phi_nonneg (tp phi : ℚ) (h : 0 < tp) : 0 ≤ wrap_phi tp phi := by
  unfold wrap_phi
  split
  · rw [wrap_phi_sub_floor tp phi h]
    exact mul_nonneg h.le (Int.fract_nonneg _)
  · rename_i hc
    push_neg at hc
    exact hc.1

lemma wrap_phi_lt (tp phi : ℚ) (h : 0 < tp) : wrap_phi tp phi < tp := by
  unfold wrap_phi
  split
  · rw [wrap_phi_sub_floor tp phi h]
    calc tp * Int.fract (phi / tp) < tp * 1 :=
          (mul_lt_mul_left h).mpr (Int.fract_lt_one _)
      _ = tp := mul_one tp
  · rename_i hc
    push_neg at hc
    exact hc.2

lemma wrap_phi_idem (tp phi : ℚ) (h : 0 < tp) :
    wrap_phi tp (wrap_phi tp phi) = wrap_phi tp phi := by
  have h0 := wrap_phi_nonneg tp phi h
  have h1 := wrap_phi_lt tp phi h
  conv_lhs => rw [wrap_phi]
  rw [if_neg]
  push_neg
  exact ⟨h0, h1⟩

/-- C8: for every finite angle, `wrap_phi` lands in `[0, two_pi)` and is
idempotent; `sweep_rc_d`, `find_root` and `find_root_period` normalize the
target azimuth before any use, so pre-wrapping the azimuth does not change
their result. -/
theorem wrap_phi_range_idem_and_used (tp : ℚ) (h : 0 < tp) (phi_o : ℚ)
    (oracle : Oracle) (rsinq : ℚ → ℚ) (solver : Solver) (params : FRTParams)
    (theta_o : ℚ) (rc_list lgd_list : List ℚ) (cutoff : ℕ) (tol : ℚ) (period : Int) :
    (0 ≤ wrap_phi tp phi_o ∧ wrap_phi tp phi_o < tp) ∧
    wrap_phi tp (wrap_phi tp phi_o) = wrap_phi tp phi_o ∧
    sweep_rc_d oracle rsinq tp solver params theta_o (wrap_phi tp phi_o)
        rc_list lgd_list cutoff tol
      = sweep_rc_d oracle rsinq tp solver params theta_o phi_o
        rc_list lgd_list cutoff tol ∧
    find_root_period oracle rsinq tp solver params period theta_o
        (wrap_phi tp phi_o) tol
      = find_root_period oracle rsinq tp solver params period theta_o phi_o tol ∧
    find_root oracle rsinq tp solver params theta_o (wrap_phi tp phi_o) tol
      = find_root oracle rsinq tp solver params theta_o phi_o tol := by
  refine ⟨⟨wrap_phi_nonneg tp phi_o h, wrap_phi_lt tp phi_o h⟩,
    wrap_phi_idem tp phi_o h, ?_, ?_, ?_⟩
  · unfold sweep_rc_d
    rw [wrap_phi_idem tp phi_o h]
  · unfold find_root_period
    rw [wrap_phi_idem tp phi_o h]
  · unfold find_root
    rw [wrap_phi_idem tp phi_o h]

/-- witness for C8 at a concrete positive period constant. -/
theorem wrap_phi_range_idem_and_used_witness :
    (0 : ℚ) < 7 ∧
    ((0 ≤ wrap_phi 7 (-5) ∧ wrap_phi 7 (-5) < 7) ∧
      wrap_phi 7 (wrap_phi 7 (-5)) = wrap_phi 7 (-5) ∧
      sweep_rc_d (fun _ => default) (fun _ => 0) 7 (fun _ x => x)
          ⟨RVal.fin 0, RVal.fin 0, true⟩ 0 (wrap_phi 7 (-5)) [0] [0] 1 1
        = sweep_rc_d (fun _ => default) (fun _ => 0) 7 (fun _ x => x)
          ⟨RVal.fin 0, RVal.fin 0, true⟩ 0 (-5) [0] [0] 1 1 ∧
      find_root_period (fun _ => default) (fun _ => 0) 7 (fun _ x => x)
          ⟨RVal.fin 0, RVal.fin 0, true⟩ 2 0 (wrap_phi 7 (-5)) 1
        = find_root_period (fun _ => default) (fun _ => 0) 7 (fun _ x => x)
          ⟨RVal.fin 0, RVal.fin 0, true⟩ 2 0 (-5) 1 ∧
      find_root (fun _ => default) (fun _ => 0) 7 (fun _ x => x)
          ⟨RVal.fin 0, RVal.fin 0, true⟩ 0 (wrap_phi 7 (-5)) 1
        = find_root (fun _ => default) (fun _ => 0) 7 (fun _ x => x)
          ⟨RVal.fin 0, RVal.fin 0, true⟩ 0 (-5) 1) :=
  ⟨by norm_num,
    wrap_phi_range_idem_and_used 7 (by norm_num) (-5) (fun _ => default)
      (fun _ => 0) (fun _ x => x) ⟨RVal.fin 0, RVal.fin 0, true⟩ 0 [0] [0] 1 1 2⟩

/-- the residual and oracle state that `find_root_period` re-evaluates at
the solver's final point (src/Utils.h:209-212). -/
def frpLast (oracle : Oracle) (rsinq : ℚ → ℚ) (tp : ℚ) (solver : Solver)
    (params : FRTParams) (period : Int) (theta_o phi_o : ℚ) :
    (RVal × RVal) × FRTResult :=
  rootFunctorCall oracle rsinq tp params (period != intMax) period theta_o
    (wrap_phi tp phi_o)
    (frpFinalX oracle rsinq tp solver params (period != intMax) period theta_o
      (wrap_phi tp phi_o))

lemma find_root_period_eq (oracle : Oracle) (rsinq : ℚ → ℚ) (tp : ℚ)
    (solver : Solver) (params : FRTParams) (period : Int)
    (theta_o phi_o tol : ℚ) :
    find_root_period oracle rsinq tp solver params period theta_o phi_o tol =
      (let last := frpLast oracle rsinq tp solver params period theta_o phi_o
       let x := frpFinalX oracle rsinq tp solver params (period != intMax) period
         theta_o (wrap_phi tp phi_o)
       if last.2.ray_status ≠ RayStatus.NORMAL then
        { success := false,
          fail_reason := "ray status: " ++ rayStatusToStr last.2.ray_status,
          root := none }
       else if rnormGt last.1.1 last.1.2 tol then
        { success := false, fail_reason := "residual > threshold", root := none }
       else
        { success := true, fail_reason := "",
          root := some { last.2 with
            rc := x.1, log_abs_d := x.2, d_sign := params.d_sign } }) := rfl

lemma ray_status_reason_ne (s : RayStatus) : "ray status: " ++ rayStatusToStr s ≠ "" := by
  cases s <;> decide

/-- C2: on a NORMAL oracle status with finite final angles, the residual
has component 1 = `theta_f - theta_o` and component 2 =
`phi_f - phi_o - period*two_pi` in fixed-period mode, else
`sin((phi_f - phi_o)/2)`; in particular `find_root_period` at a fixed
period `P ≠ intMax` re-evaluates exactly the fixed-period residual at the
solver's final point (with the wrapped target azimuth). -/
theorem residual_component_formulas (oracle : Oracle) (rsinq : ℚ → ℚ) (tp : ℚ)
    (params : FRTParams) (period : Int) (theta_o phi_o : ℚ) :
    (∀ (x : RVal × RVal) (tf pf : ℚ),
      (oracle { params with rc := x.1, log_abs_d := x.2 }).ray_status = RayStatus.NORMAL →
      (oracle { params with rc := x.1, log_abs_d := x.2 }).theta_f = RVal.fin tf →
      (oracle { params with rc := x.1, log_abs_d := x.2 }).phi_f = RVal.fin pf →
      (rootFunctorCall oracle rsinq tp params true period theta_o phi_o x).1
        = (RVal.fin (tf - theta_o), RVal.fin (pf - phi_o - (period : ℚ) * tp)) ∧
      (rootFunctorCall oracle rsinq tp params false period theta_o phi_o x).1
        = (RVal.fin (tf - theta_o), RVal.fin (rsinq ((pf - phi_o) / 2)))) ∧
    (∀ (solver : Solver) (tf pf : ℚ), period ≠ intMax →
      (oracle { params with
          rc := (frpFinalX oracle rsinq tp solver params (period != intMax) period
            theta_o (wrap_phi tp phi_o)).1,
          log_abs_d := (frpFinalX oracle rsinq tp solver params (period != intMax)
            period theta_o (wrap_phi tp phi_o)).2 }).ray_status = RayStatus.NORMAL →
      (oracle { params with
          rc := (frpFinalX oracle rsinq tp solver params (period != intMax) period
            theta_o (wrap_phi tp phi_o)).1,
          log_abs_d := (frpFinalX oracle rsinq tp solver params (period != intMax)
            period theta_o (wrap_phi tp phi_o)).2 }).theta_f = RVal.fin tf →
      (oracle { params with
          rc := (frpFinalX oracle rsinq tp solver params (period != intMax) period
            theta_o (wrap_phi tp phi_o)).1,
          log_abs_d := (frpFinalX oracle rsinq tp solver params (period != intMax)
            period theta_o (wrap_phi tp phi_o)).2 }).phi_f = RVal.fin pf →
      (frpLast oracle rsinq tp solver params period theta_o phi_o).1
        = (RVal.fin (tf - theta_o),
           RVal.fin (pf - wrap_phi tp phi_o - (period : ℚ) * tp))) := by
  constructor
  · intro x tf pf h1 h2 h3
    constructor
    · simp [rootFunctorCall, h1, h2, h3, rsub, rmul]
    · simp [rootFunctorCall, h1, h2, h3, rsub, rmul, rsin, RVal.map, div_eq_mul_inv]
  · intro solver tf pf hP h1 h2 h3
    have hb : (period != intMax) = true := by
      simpa using hP
    unfold frpLast
    rw [hb] at h1 h2 h3 ⊢
    simp [rootFunctorCall, h1, h2, h3, rsub, rmul]

/-- a concrete oracle that always reports NORMAL with final angles
θ_f = 5, φ_f = 11, used by witnesses. -/
def exOracleNormal : Oracle := fun _ =>
  { rc := RVal.nan, log_abs_d := RVal.nan, d_sign := true, theta_f := RVal.fin 5,
    phi_f := RVal.fin 11, lambda := RVal.fin 0, eta := RVal.fin 0,
    ray_status := RayStatus.NORMAL }

/-- witness for C2 at `exOracleNormal`. -/
theorem residual_component_formulas_witness :
    (exOracleNormal { (⟨RVal.fin 1, RVal.fin 2, true⟩ : FRTParams) with
      rc := (RVal.fin 1, RVal.fin 2).1,
      log_abs_d := (RVal.fin 1, RVal.fin 2).2 }).ray_status = RayStatus.NORMAL ∧
    (rootFunctorCall exOracleNormal (fun q => q) 7 ⟨RVal.fin 1, RVal.fin 2, true⟩
        true 3 1 2 (RVal.fin 1, RVal.fin 2)).1
      = (RVal.fin (5 - 1), RVal.fin (11 - 2 - (3 : ℚ) * 7)) := by
  constructor
  · rfl
  · exact ((residual_component_formulas exOracleNormal (fun q => q) 7
      ⟨RVal.fin 1, RVal.fin 2, true⟩ 3 1 2).1
      (RVal.fin 1, RVal.fin 2) 5 11 rfl rfl rfl).1

/-- C5: on a non-NORMAL oracle status the residual function returns the
NaN-sentinel residual without raising, and the sampling phase stores NaN
in every cached field of the invalid cell. -/
theorem nan_sentinel_on_invalid (oracle : Oracle) (rsinq : ℚ → ℚ) (tp : ℚ)
    (params : FRTParams) (fixedPeriod : Bool) (period : Int)
    (theta_o phi_o : ℚ) (x : RVal × RVal) (rc lgd : ℚ)
    (h1 : (oracle { params with rc := x.1, log_abs_d := x.2 }).ray_status ≠
      RayStatus.NORMAL)
    (h2 : (oracle { params with
        rc := RVal.fin rc,
        log_abs_d := RVal.fin lgd }).ray_status ≠ RayStatus.NORMAL) :
    (rootFunctorCall oracle rsinq tp params fixedPeriod period theta_o phi_o x).1
      = (RVal.nan, RVal.nan) ∧
    sampleCell oracle rsinq params theta_o phi_o rc lgd = nanCell := by
  constructor
  · simp [rootFunctorCall, h1]
  · simp [sampleCell, h2]

/-- witness for C5 with an oracle that always reports CONFINED. -/
theorem nan_sentinel_on_invalid_witness :
    ((fun _ => { (default : FRTResult) with
        ray_status := RayStatus.CONFINED } : Oracle)
      { (⟨RVal.fin 0, RVal.fin 0, true⟩ : FRTParams) with
        rc := (RVal.fin 1, RVal.fin 2).1,
        log_abs_d := (RVal.fin 1, RVal.fin 2).2 }).ray_status ≠ RayStatus.NORMAL ∧
    (rootFunctorCall (fun _ => { (default : FRTResult) with
        ray_status := RayStatus.CONFINED }) (fun q => q) 7
        ⟨RVal.fin 0, RVal.fin 0, true⟩ true 3 1 2 (RVal.fin 1, RVal.fin 2)).1
      = (RVal.nan, RVal.nan) ∧
    sampleCell (fun _ => { (default : FRTResult) with
        ray_status := RayStatus.CONFINED }) (fun q => q)
        ⟨RVal.fin 0, RVal.fin 0, true⟩ 1 2 3 4 = nanCell := by
  refine ⟨by decide, ?_⟩
  exact nan_sentinel_on_invalid (fun _ => { (default : FRTResult) with
      ray_status := RayStatus.CONFINED }) (fun q => q) 7
      ⟨RVal.fin 0, RVal.fin 0, true⟩ true 3 1 2 (RVal.fin 1, RVal.fin 2) 3 4
      (by decide) (by decide)

/-- C4: `find_root_period` always returns a discriminated result computed
from the residual re-evaluated at the solver's final point: a structured
failure (with a nonempty human-readable reason and no root) when the final
oracle status is not NORMAL or the residual norm exceeds the tolerance,
and otherwise success with a root whose `rc`/`log_abs_d` coordinates are
the solver's final point. -/
theorem find_root_period_discriminated (oracle : Oracle) (rsinq : ℚ → ℚ) (tp : ℚ)
    (solver : Solver) (params : FRTParams) (period : Int) (theta_o phi_o tol : ℚ) :
    ((frpLast oracle rsinq tp solver params period theta_o phi_o).2.ray_status ≠
        RayStatus.NORMAL →
      (find_root_period oracle rsinq tp solver params period theta_o phi_o tol).success
          = false ∧
      (find_root_period oracle rsinq tp solver params period theta_o phi_o tol).root
          = none ∧
      (find_root_period oracle rsinq tp solver params period theta_o phi_o tol).fail_reason
          ≠ "") ∧
    ((frpLast oracle rsinq tp solver params period theta_o phi_o).2.ray_status =
        RayStatus.NORMAL →
      rnormGt (frpLast oracle rsinq tp solver params period theta_o phi_o).1.1
        (frpLast oracle rsinq tp solver params period theta_o phi_o).1.2 tol = true →
      (find_root_period oracle rsinq tp solver params period theta_o phi_o tol).success
          = false ∧
      (find_root_period oracle rsinq tp solver params period theta_o phi_o tol).root
          = none ∧
      (find_root_period oracle rsinq tp solver params period theta_o phi_o tol).fail_reason
          ≠ "") ∧
    ((frpLast oracle rsinq tp solver params period theta_o phi_o).2.ray_status =
        RayStatus.NORMAL →
      rnormGt (frpLast oracle rsinq tp solver params period theta_o phi_o).1.1
        (frpLast oracle rsinq tp solver params period theta_o phi_o).1.2 tol = false →
      (find_root_period oracle rsinq tp solver params period theta_o phi_o tol).success
          = true ∧
      (find_root_period oracle rsinq tp solver params period theta_o phi_o tol).root
          = some { (frpLast oracle rsinq tp solver params period theta_o phi_o).2 with
              rc := (frpFinalX oracle rsinq tp solver params (period != intMax) period
                theta_o (wrap_phi tp phi_o)).1,
              log_abs_d := (frpFinalX oracle rsinq tp solver params (period != intMax)
                period theta_o (wrap_phi tp phi_o)).2,
              d_sign := params.d_sign }) := by
  refine ⟨?_, ?_, ?_⟩
  · intro h
    have e : find_root_period oracle rsinq tp solver params period theta_o phi_o tol
        = { success := false,
            fail_reason := "ray status: " ++
              rayStatusToStr (frpLast oracle rsinq tp solver params period theta_o
                phi_o).2.ray_status,
            root := none } := by
      simp only [find_root_period_eq]
      rw [if_pos h]
    rw [e]
    exact ⟨rfl, rfl, ray_status_reason_ne _⟩
  · intro h1 h2
    have e : find_root_period oracle rsinq tp solver params period theta_o phi_o tol
        = { success := false, fail_reason := "residual > threshold", root := none } := by
      simp only [find_root_period_eq]
      rw [if_neg (by simp [h1]), if_pos h2]
    rw [e]
    exact ⟨rfl, rfl, by decide⟩
  · intro h1 h2
    have e : find_root_period oracle rsinq tp solver params period theta_o phi_o tol
        = { success := true, fail_reason := "",
            root := some { (frpLast oracle rsinq tp solver params period theta_o
                phi_o).2 with
              rc := (frpFinalX oracle rsinq tp solver params (period != intMax) period
                theta_o (wrap_phi tp phi_o)).1,
              log_abs_d := (frpFinalX oracle rsinq tp solver params (period != intMax)
                period theta_o (wrap_phi tp phi_o)).2,
              d_sign := params.d_sign } } := by
      simp only [find_root_period_eq]
      rw [if_neg (by simp [h1]), if_neg (by simp [h2])]
    rw [e]
    exact ⟨rfl, rfl⟩

/-- witness for C4 on the success branch: identity solver, NORMAL oracle,
residual (0, -10), tolerance 20. -/
theorem find_root_period_discriminated_witness :
    (frpLast exOracleNormal (fun q => q) 7 (fun _ x => x)
        ⟨RVal.fin 1, RVal.fin 2, true⟩ 3 5 0).2.ray_status = RayStatus.NORMAL ∧
    rnormGt (frpLast exOracleNormal (fun q => q) 7 (fun _ x => x)
        ⟨RVal.fin 1, RVal.fin 2, true⟩ 3 5 0).1.1
      (frpLast exOracleNormal (fun q => q) 7 (fun _ x => x)
        ⟨RVal.fin 1, RVal.fin 2, true⟩ 3 5 0).1.2 20 = false ∧
    ((find_root_period exOracleNormal (fun q => q) 7 (fun _ x => x)
        ⟨RVal.fin 1, RVal.fin 2, true⟩ 3 5 0 20).success = true ∧
      (find_root_period exOracleNormal (fun q => q) 7 (fun _ x => x)
        ⟨RVal.fin 1, RVal.fin 2, true⟩ 3 5 0 20).root
        = some { (frpLast exOracleNormal (fun q => q) 7 (fun _ x => x)
              ⟨RVal.fin 1, RVal.fin 2, true⟩ 3 5 0).2 with
            rc := (frpFinalX exOracleNormal (fun q => q) 7 (fun _ x => x)
              ⟨RVal.fin 1, RVal.fin 2, true⟩ ((3 : Int) != intMax) 3 5
              (wrap_phi 7 0)).1,
            log_abs_d := (frpFinalX exOracleNormal (fun q => q) 7 (fun _ x => x)
              ⟨RVal.fin 1, RVal.fin 2, true⟩ ((3 : Int) != intMax) 3 5
              (wrap_phi 7 0)).2,
            d_sign := true }) :=
  ⟨by with_unfolding_all decide, by with_unfolding_all decide,
    (find_root_period_discriminated exOracleNormal (fun q => q) 7 (fun _ x => x)
      ⟨RVal.fin 1, RVal.fin 2, true⟩ 3 5 0 20).2.2 (by with_unfolding_all decide)
      (by with_unfolding_all decide)⟩

lemma foldl_writeChunk_cases (oracle : Oracle) (pl : List FRTParams)
    (chunks : List (ℕ × ℕ)) : ∀ (acc : ℕ → Option FRTResult) (k : ℕ),
    (chunks.foldl (writeChunk oracle pl) acc) k = acc k ∨
    (chunks.foldl (writeChunk oracle pl) acc) k = (pl[k]?).map (calc_ray oracle) := by
  induction chunks with
  | nil => intro acc k; exact Or.inl rfl
  | cons c cs ih =>
    intro acc k
    rw [List.foldl_cons]
    rcases ih (writeChunk oracle pl acc c) k with h | h
    · rw [h]
      unfold writeChunk
      by_cases hk : c.1 ≤ k ∧ k < c.2
      · right; simp [hk]
      · left; simp [hk]
    · right; exact h

lemma foldl_writeChunk_covered (oracle : Oracle) (pl : List FRTParams)
    (chunks : List (ℕ × ℕ)) : ∀ (acc : ℕ → Option FRTResult) (k : ℕ),
    (∃ c ∈ chunks, c.1 ≤ k ∧ k < c.2) →
    (chunks.foldl (writeChunk oracle pl) acc) k = (pl[k]?).map (calc_ray oracle) := by
  induction chunks with
  | nil =>
    intro acc k h
    rcases h with ⟨c, hc, _⟩
    cases hc
  | cons c cs ih =>
    intro acc k h
    rcases h with ⟨d, hd, hin⟩
    rw [List.foldl_cons]
    rcases List.mem_cons.mp hd with rfl | hd'
    · rcases foldl_writeChunk_cases oracle pl cs (writeChunk oracle pl acc d) k
        with h1 | h1
      · rw [h1]
        unfold writeChunk
        simp [hin]
      · exact h1
    · exact ih _ k ⟨d, hd', hin⟩

/-- C9: `calc_ray_batch` returns one output per input, the i-th output
being the oracle evaluation of the i-th input; and for every family of
chunks covering the index space, the chunked parallel execution produces
exactly the same array, index for index. -/
theorem calc_ray_batch_order (oracle : Oracle) (pl : List FRTParams)
    (chunks : List (ℕ × ℕ))
    (hcover : ∀ i, i < pl.length → ∃ c ∈ chunks, c.1 ≤ i ∧ i < c.2) :
    (calc_ray_batch oracle pl).length = pl.length ∧
    (∀ i : ℕ, (calc_ray_batch oracle pl)[i]? = (pl[i]?).map (calc_ray oracle)) ∧
    (∀ i : ℕ, runChunks oracle pl chunks i = (calc_ray_batch oracle pl)[i]?) := by
  refine ⟨by simp [calc_ray_batch], ?_, ?_⟩
  · intro i
    simp [calc_ray_batch, List.getElem?_map]
  · intro i
    have hmap : (calc_ray_batch oracle pl)[i]? = (pl[i]?).map (calc_ray oracle) := by
      simp [calc_ray_batch, List.getElem?_map]
    rw [hmap]
    by_cases hi : i < pl.length
    · exact foldl_writeChunk_covered oracle pl chunks _ i (hcover i hi)
    · have h1 : pl[i]? = none := List.getElem?_eq_none (le_of_not_lt hi)
      rcases foldl_writeChunk_cases oracle pl chunks (fun _ => none) i with h | h
      · rw [runChunks, h, h1]
        rfl
      · rw [runChunks, h]

/-- witness for C9: two inputs, two chunks in reverse order. -/
theorem calc_ray_batch_order_witness :
    (∀ i, i < ([⟨RVal.fin 1, RVal.fin 2, true⟩,
        ⟨RVal.fin 3, RVal.fin 4, false⟩] : List FRTParams).length →
      ∃ c ∈ [((1 : ℕ), (2 : ℕ)), ((0 : ℕ), (1 : ℕ))], c.1 ≤ i ∧ i < c.2) ∧
    ((calc_ray_batch exOracleNormal [⟨RVal.fin 1, RVal.fin 2, true⟩,
        ⟨RVal.fin 3, RVal.fin 4, false⟩]).length = 2 ∧
      (∀ i : ℕ, runChunks exOracleNormal [⟨RVal.fin 1, RVal.fin 2, true⟩,
          ⟨RVal.fin 3, RVal.fin 4, false⟩] [(1, 2), (0, 1)] i
        = (calc_ray_batch exOracleNormal [⟨RVal.fin 1, RVal.fin 2, true⟩,
            ⟨RVal.fin 3, RVal.fin 4, false⟩])[i]?)) := by
  have hcover : ∀ i, i < ([⟨RVal.fin 1, RVal.fin 2, true⟩,
      ⟨RVal.fin 3, RVal.fin 4, false⟩] : List FRTParams).length →
      ∃ c ∈ [((1 : ℕ), (2 : ℕ)), ((0 : ℕ), (1 : ℕ))], c.1 ≤ i ∧ i < c.2 := by
    decide
  refine ⟨hcover, ?_, ?_⟩
  · exact (calc_ray_batch_order exOracleNormal _ _ hcover).1
  · exact (calc_ray_batch_order exOracleNormal _ _ hcover).2.2

lemma promoteList_eq_map (u : ℚ → ℚ) (l : List ℚ) : promoteList u l = l.map u := by
  apply List.ext_getElem?
  intro i
  by_cases hi : i < l.length
  · simp [promoteList, List.getElem?_map, List.getElem?_range, hi,
      List.getD_eq_getElem?_getD, List.getElem?_eq_getElem hi]
  · simp [promoteList, List.getElem?_map, List.getElem?_range, hi,
      List.getElem?_eq_none (le_of_not_lt hi)]
    omega

/-- C7: the high-precision fallback equals the working-precision cast of
the plain sweep run at the higher precision on promoted inputs: every
numeric input is promoted, `sweep_rc_d` runs unmodified at the higher
precision, and every field of the resulting `SweepResult` (six matrices,
both candidate point lists, the paired-candidate list, each refined
result) is cast back before being returned. -/
theorem sweep_rc_d_high_is_promoted_sweep (oracleH : Oracle) (rsinqH : ℚ → ℚ)
    (tpH : ℚ) (solverH : Solver) (u dcast : ℚ → ℚ) (params : FRTParams)
    (theta_o phi_o : ℚ) (rc_list lgd_list : List ℚ) (cutoff : ℕ) (tol : ℚ) :
    sweep_rc_d_high oracleH rsinqH tpH solverH u dcast params theta_o phi_o
        rc_list lgd_list cutoff tol
      = sweepHighPrecision_spec oracleH rsinqH tpH solverH u dcast params theta_o
        phi_o rc_list lgd_list cutoff tol := by
  unfold sweep_rc_d_high sweepHighPrecision_spec get_low_prec
  rw [promoteList_eq_map, promoteList_eq_map]

lemma mem_thetaRootsIdx (dth : List (List RVal)) (nr nc i j : ℕ) :
    (i, j) ∈ thetaRootsIdx dth nr nc ↔
      1 ≤ i ∧ i < nr ∧ 1 ≤ j ∧ j < nc ∧ isThetaCand dth i j = true := by
  unfold thetaRootsIdx
  simp only [List.mem_flatMap, List.mem_filterMap, List.mem_range'_1,
    Option.ite_none_right_eq_some, Option.some.injEq, Prod.mk.injEq]
  constructor
  · rintro ⟨a, ⟨ha1, ha2⟩, b, ⟨hb1, hb2⟩, hc, rfl, rfl⟩
    exact ⟨ha1, by omega, hb1, by omega, hc⟩
  · rintro ⟨hi, hnr, hj, hnc, hc⟩
    exact ⟨i, ⟨hi, by omega⟩, j, ⟨hj, by omega⟩, hc, rfl, rfl⟩

lemma mem_phiRootsIdx (dph lam : List (List RVal)) (nr nc i j : ℕ) :
    (i, j) ∈ phiRootsIdx dph lam nr nc ↔
      1 ≤ i ∧ i < nr ∧ 1 ≤ j ∧ j < nc ∧ isPhiCand dph lam i j = true := by
  unfold phiRootsIdx
  simp only [List.mem_flatMap, List.mem_filterMap, List.mem_range'_1,
    Option.ite_none_right_eq_some, Option.some.injEq, Prod.mk.injEq]
  constructor
  · rintro ⟨a, ⟨ha1, ha2⟩, b, ⟨hb1, hb2⟩, hc, rfl, rfl⟩
    exact ⟨ha1, by omega, hb1, by omega, hc⟩
  · rintro ⟨hi, hnr, hj, hnc, hc⟩
    exact ⟨i, ⟨hi, by omega⟩, j, ⟨hj, by omega⟩, hc, rfl, rfl⟩

lemma isThetaCand_iff (dth : List (List RVal)) (i j : ℕ) :
    isThetaCand dth i j = true ↔
      (risnan (mget dth i j) = false ∧ risnan (mget dth i (j - 1)) = false ∧
        risnan (mget dth (i - 1) j) = false ∧
        (rsgn (mget dth i j) * rsgn (mget dth i (j - 1)) ≤ 0 ∨
          rsgn (mget dth i j) * rsgn (mget dth (i - 1) j) ≤ 0)) := by
  unfold isThetaCand
  simp only [Bool.and_eq_true, Bool.or_eq_true, Bool.not_eq_true',
    decide_eq_true_eq]
  tauto

lemma isPhiCand_iff (dph lam : List (List RVal)) (i j : ℕ) :
    isPhiCand dph lam i j = true ↔
      (risnan (mget dph i j) = false ∧ risnan (mget dph i (j - 1)) = false ∧
        risnan (mget dph (i - 1) j) = false ∧
        risnan (mget lam i j) = false ∧ risnan (mget lam i (j - 1)) = false ∧
        risnan (mget lam (i - 1) j) = false ∧
        rsgn (mget lam i j) * rsgn (mget lam i (j - 1)) > 0 ∧
        rsgn (mget lam i j) * rsgn (mget lam (i - 1) j) > 0 ∧
        (rsgn (mget dph i j) * rsgn (mget dph i (j - 1)) ≤ 0 ∨
          rsgn (mget dph i j) * rsgn (mget dph (i - 1) j) ≤ 0)) := by
  unfold isPhiCand
  simp only [Bool.and_eq_true, Bool.or_eq_true, Bool.not_eq_true',
    decide_eq_true_eq]
  tauto

/-- C3: an interior cell is marked a θ-candidate iff Δθ at the cell and at
its left and upper neighbors is non-NaN and one of the two sign products is
≤ 0; it is marked a φ-candidate iff the symmetric Δφ condition holds and
additionally λ is non-NaN at the three positions with both λ sign products
> 0; hence no cell is flagged when itself or a required neighbor sample is
NaN. -/
theorem root_isolation_marking (dth dph lam : List (List RVal)) (nr nc i j : ℕ) :
    ((i, j) ∈ thetaRootsIdx dth nr nc ↔
      (1 ≤ i ∧ i < nr ∧ 1 ≤ j ∧ j < nc ∧
        risnan (mget dth i j) = false ∧ risnan (mget dth i (j - 1)) = false ∧
        risnan (mget dth (i - 1) j) = false ∧
        (rsgn (mget dth i j) * rsgn (mget dth i (j - 1)) ≤ 0 ∨
          rsgn (mget dth i j) * rsgn (mget dth (i - 1) j) ≤ 0))) ∧
    ((i, j) ∈ phiRootsIdx dph lam nr nc ↔
      (1 ≤ i ∧ i < nr ∧ 1 ≤ j ∧ j < nc ∧
        risnan (mget dph i j) = false ∧ risnan (mget dph i (j - 1)) = false ∧
        risnan (mget dph (i - 1) j) = false ∧
        risnan (mget lam i j) = false ∧ risnan (mget lam i (j - 1)) = false ∧
        risnan (mget lam (i - 1) j) = false ∧
        rsgn (mget lam i j) * rsgn (mget lam i (j - 1)) > 0 ∧
        rsgn (mget lam i j) * rsgn (mget lam (i - 1) j) > 0 ∧
        (rsgn (mget dph i j) * rsgn (mget dph i (j - 1)) ≤ 0 ∨
          rsgn (mget dph i j) * rsgn (mget dph (i - 1) j) ≤ 0))) ∧
    ((risnan (mget dth i j) = true ∨ risnan (mget dth i (j - 1)) = true ∨
        risnan (mget dth (i - 1) j) = true) → (i, j) ∉ thetaRootsIdx dth nr nc) ∧
    ((risnan (mget dph i j) = true ∨ risnan (mget dph i (j - 1)) = true ∨
        risnan (mget dph (i - 1) j) = true ∨ risnan (mget lam i j) = true ∨
        risnan (mget lam i (j - 1)) = true ∨ risnan (mget lam (i - 1) j) = true) →
      (i, j) ∉ phiRootsIdx dph lam nr nc) := by
  have ht : (i, j) ∈ thetaRootsIdx dth nr nc ↔
      (1 ≤ i ∧ i < nr ∧ 1 ≤ j ∧ j < nc ∧
        (risnan (mget dth i j) = false ∧ risnan (mget dth i (j - 1)) = false ∧
          risnan (mget dth (i - 1) j) = false ∧
          (rsgn (mget dth i j) * rsgn (mget dth i (j - 1)) ≤ 0 ∨
            rsgn (mget dth i j) * rsgn (mget dth (i - 1) j) ≤ 0))) := by
    rw [mem_thetaRootsIdx, isThetaCand_iff]
  have hp : (i, j) ∈ phiRootsIdx dph lam nr nc ↔
      (1 ≤ i ∧ i < nr ∧ 1 ≤ j ∧ j < nc ∧
        (risnan (mget dph i j) = false ∧ risnan (mget dph i (j - 1)) = false ∧
          risnan (mget dph (i - 1) j) = false ∧
          risnan (mget lam i j) = false ∧ risnan (mget lam i (j - 1)) = false ∧
          risnan (mget lam (i - 1) j) = false ∧
          rsgn (mget lam i j) * rsgn (mget lam i (j - 1)) > 0 ∧
          rsgn (mget lam i j) * rsgn (mget lam (i - 1) j) > 0 ∧
          (rsgn (mget dph i j) * rsgn (mget dph i (j - 1)) ≤ 0 ∨
            rsgn (mget dph i j) * rsgn (mget dph (i - 1) j) ≤ 0))) := by
    rw [mem_phiRootsIdx, isPhiCand_iff]
  refine ⟨by rw [ht], by rw [hp], ?_, ?_⟩
  · intro hnan hmem
    rw [ht] at hmem
    rcases hnan with h | h | h <;>
      simp [h] at hmem
  · intro hnan hmem
    rw [hp] at hmem
    rcases hnan with h | h | h | h | h | h <;>
      simp [h] at hmem

/-- witness for C3: a NaN cell is not marked, on a concrete 2x2 grid. -/
theorem root_isolation_marking_witness :
    risnan (mget [[RVal.fin 0, RVal.fin 1], [RVal.fin (-1), RVal.nan]] 1 1) = true ∧
    (1, 1) ∉ thetaRootsIdx [[RVal.fin 0, RVal.fin 1], [RVal.fin (-1), RVal.nan]] 2 2 :=
  ⟨by decide,
    (root_isolation_marking [[RVal.fin 0, RVal.fin 1], [RVal.fin (-1), RVal.nan]]
      [[]] [[]] 2 2 1 1).2.2.1 (Or.inl (by decide))⟩

lemma sweepGrid_cell_nan (oracle : Oracle) (rsinq : ℚ → ℚ) (params : FRTParams)
    (theta_o phi_o : ℚ) (rc_list lgd_list : List ℚ)
    (hconf : ∀ p, (oracle p).ray_status ≠ RayStatus.NORMAL) (sel : Cell → RVal)
    (hsel : sel nanCell = RVal.nan) (i j : ℕ) :
    mget ((sweepGrid oracle rsinq params theta_o phi_o rc_list lgd_list).map
      (fun row => row.map sel)) i j = RVal.nan := by
  have hcell : ∀ rc lgd, sampleCell oracle rsinq params theta_o phi_o rc lgd
      = nanCell := by
    intro rc lgd
    unfold sampleCell
    rw [if_neg (hconf _)]
  unfold mget sweepGrid
  simp only [List.map_map, List.getD_eq_getElem?_getD, List.getElem?_map]
  cases hl : lgd_list[i]? with
  | none => simp
  | some lgd =>
    simp only [hl, Option.map_some', Option.getD_some, Function.comp_apply,
      List.map_map, List.getElem?_map]
    cases hr : rc_list[j]? with
    | none => simp
    | some rc =>
      simp [hr, Function.comp, hcell, hsel]

lemma thetaRootsIdx_nil_of_nan (dth : List (List RVal)) (nr nc : ℕ)
    (h : ∀ i j, mget dth i j = RVal.nan) :
    thetaRootsIdx dth nr nc = [] := by
  unfold thetaRootsIdx
  rw [List.flatMap_eq_nil_iff]
  intro i _
  rw [List.filterMap_eq_nil_iff]
  intro j _
  simp [isThetaCand, h, risnan]

lemma phiRootsIdx_nil_of_nan (dph lam : List (List RVal)) (nr nc : ℕ)
    (h : ∀ i j, mget dph i j = RVal.nan) :
    phiRootsIdx dph lam nr nc = [] := by
  unfold phiRootsIdx
  rw [List.flatMap_eq_nil_iff]
  intro i _
  rw [List.filterMap_eq_nil_iff]
  intro j _
  simp [isPhiCand, h, risnan]

/-- C6: a sweep whose θ- and φ-candidate sets are both empty returns a
structurally valid `SweepResult` with empty candidate lists, empty pairing
list and empty refined-results list; in particular this happens whenever
the oracle reports CONFINED at every grid point. -/
theorem empty_sweep_result (oracle : Oracle) (rsinq : ℚ → ℚ) (tp : ℚ)
    (solver : Solver) (params : FRTParams) (theta_o phi_o : ℚ)
    (rc_list lgd_list : List ℚ) (cutoff : ℕ) (tol : ℚ) :
    (thetaRootsIdx ((sweepGrid oracle rsinq params theta_o (wrap_phi tp phi_o)
          rc_list lgd_list).map (fun row => row.map Cell.dth))
        lgd_list.length rc_list.length = [] →
      phiRootsIdx ((sweepGrid oracle rsinq params theta_o (wrap_phi tp phi_o)
            rc_list lgd_list).map (fun row => row.map Cell.dph))
          ((sweepGrid oracle rsinq params theta_o (wrap_phi tp phi_o)
            rc_list lgd_list).map (fun row => row.map Cell.lambda))
          lgd_list.length rc_list.length = [] →
      (sweep_rc_d oracle rsinq tp solver params theta_o phi_o rc_list lgd_list
        cutoff tol).theta_roots = [] ∧
      (sweep_rc_d oracle rsinq tp solver params theta_o phi_o rc_list lgd_list
        cutoff tol).phi_roots = [] ∧
      (sweep_rc_d oracle rsinq tp solver params theta_o phi_o rc_list lgd_list
        cutoff tol).theta_roots_closest = [] ∧
      (sweep_rc_d oracle rsinq tp solver params theta_o phi_o rc_list lgd_list
        cutoff tol).results = []) ∧
    ((∀ p, (oracle p).ray_status = RayStatus.CONFINED) →
      thetaRootsIdx ((sweepGrid oracle rsinq params theta_o (wrap_phi tp phi_o)
          rc_list lgd_list).map (fun row => row.map Cell.dth))
        lgd_list.length rc_list.length = [] ∧
      phiRootsIdx ((sweepGrid oracle rsinq params theta_o (wrap_phi tp phi_o)
            rc_list lgd_list).map (fun row => row.map Cell.dph))
          ((sweepGrid oracle rsinq params theta_o (wrap_phi tp phi_o)
            rc_list lgd_list).map (fun row => row.map Cell.lambda))
          lgd_list.length rc_list.length = [] ∧
      (sweep_rc_d oracle rsinq tp solver params theta_o phi_o rc_list lgd_list
        cutoff tol).theta_roots = [] ∧
      (sweep_rc_d oracle rsinq tp solver params theta_o phi_o rc_list lgd_list
        cutoff tol).phi_roots = [] ∧
      (sweep_rc_d oracle rsinq tp solver params theta_o phi_o rc_list lgd_list
        cutoff tol).theta_roots_closest = [] ∧
      (sweep_rc_d oracle rsinq tp solver params theta_o phi_o rc_list lgd_list
        cutoff tol).results = []) := by
  constructor
  · intro h1 h2
    refine ⟨?_, ?_, ?_, ?_⟩ <;> simp [sweep_rc_d, h1, h2]
  · intro hconf
    have hne : ∀ p, (oracle p).ray_status ≠ RayStatus.NORMAL := by
      intro p
      rw [hconf p]
      exact fun hcontra => RayStatus.noConfusion hcontra
    have h1 := thetaRootsIdx_nil_of_nan
      ((sweepGrid oracle rsinq params theta_o (wrap_phi tp phi_o)
        rc_list lgd_list).map (fun row => row.map Cell.dth))
      lgd_list.length rc_list.length
      (fun i j => sweepGrid_cell_nan oracle rsinq params theta_o
        (wrap_phi tp phi_o) rc_list lgd_list hne Cell.dth rfl i j)
    have h2 := phiRootsIdx_nil_of_nan
      ((sweepGrid oracle rsinq params theta_o (wrap_phi tp phi_o)
        rc_list lgd_list).map (fun row => row.map Cell.dph))
      ((sweepGrid oracle rsinq params theta_o (wrap_phi tp phi_o)
        rc_list lgd_list).map (fun row => row.map Cell.lambda))
      lgd_list.length rc_list.length
      (fun i j => sweepGrid_cell_nan oracle rsinq params theta_o
        (wrap_phi tp phi_o) rc_list lgd_list hne Cell.dph rfl i j)
    refine ⟨h1, h2, ?_, ?_, ?_, ?_⟩ <;> simp [sweep_rc_d, h1, h2]

/-- an oracle that always reports CONFINED, used by the C6 witness. -/
def exOracleConfined : Oracle := fun _ =>
  { rc := RVal.nan, log_abs_d := RVal.nan, d_sign := true, theta_f := RVal.nan,
    phi_f := RVal.nan, lambda := RVal.nan, eta := RVal.nan,
    ray_status := RayStatus.CONFINED }

/-- witness for C6: an all-CONFINED oracle on a 2x2 grid yields empty
candidate lists and an empty result list. -/
theorem empty_sweep_result_witness :
    (∀ p, (exOracleConfined p).ray_status = RayStatus.CONFINED) ∧
    ((sweep_rc_d exOracleConfined (fun q => q) 7 (fun _ x => x)
        ⟨RVal.fin 0, RVal.fin 0, true⟩ 0 0 [0, 1] [0, 1] 5 1).theta_roots = [] ∧
      (sweep_rc_d exOracleConfined (fun q => q) 7 (fun _ x => x)
        ⟨RVal.fin 0, RVal.fin 0, true⟩ 0 0 [0, 1] [0, 1] 5 1).phi_roots = [] ∧
      (sweep_rc_d exOracleConfined (fun q => q) 7 (fun _ x => x)
        ⟨RVal.fin 0, RVal.fin 0, true⟩ 0 0 [0, 1] [0, 1] 5 1).theta_roots_closest
        = [] ∧
      (sweep_rc_d exOracleConfined (fun q => q) 7 (fun _ x => x)
        ⟨RVal.fin 0, RVal.fin 0, true⟩ 0 0 [0, 1] [0, 1] 5 1).results = []) :=
  ⟨fun _ => rfl,
    (((empty_sweep_result exOracleConfined (fun q => q) 7 (fun _ x => x)
      ⟨RVal.fin 0, RVal.fin 0, true⟩ 0 0 [0, 1] [0, 1] 5 1).2
      (fun _ => rfl)).2.2)⟩

/-- C10: when at least one θ-candidate exists but the φ-candidate set is
empty, the sweep returns early with `theta_roots` holding one (rc, log|d|)
row per θ-candidate while the φ-candidate list, the pairing list and the
refined results list are all empty. -/
theorem sweep_theta_only_early_return (oracle : Oracle) (rsinq : ℚ → ℚ) (tp : ℚ)
    (solver : Solver) (params : FRTParams) (theta_o phi_o : ℚ)
    (rc_list lgd_list : List ℚ) (cutoff : ℕ) (tol : ℚ)
    (h1 : thetaRootsIdx ((sweepGrid oracle rsinq params theta_o (wrap_phi tp phi_o)
        rc_list lgd_list).map (fun row => row.map Cell.dth))
      lgd_list.length rc_list.length ≠ [])
    (h2 : phiRootsIdx ((sweepGrid oracle rsinq params theta_o (wrap_phi tp phi_o)
          rc_list lgd_list).map (fun row => row.map Cell.dph))
        ((sweepGrid oracle rsinq params theta_o (wrap_phi tp phi_o)
          rc_list lgd_list).map (fun row => row.map Cell.lambda))
        lgd_list.length rc_list.length = []) :
    (sweep_rc_d oracle rsinq tp solver params theta_o phi_o rc_list lgd_list
        cutoff tol).theta_roots
      = (thetaRootsIdx ((sweepGrid oracle rsinq params theta_o (wrap_phi tp phi_o)
          rc_list lgd_list).map (fun row => row.map Cell.dth))
          lgd_list.length rc_list.length).map
        (fun ij => (rc_list.getD ij.2 0, lgd_list.getD ij.1 0)) ∧
    (sweep_rc_d oracle rsinq tp solver params theta_o phi_o rc_list lgd_list
      cutoff tol).phi_roots = [] ∧
    (sweep_rc_d oracle rsinq tp solver params theta_o phi_o rc_list lgd_list
      cutoff tol).theta_roots_closest = [] ∧
    (sweep_rc_d oracle rsinq tp solver params theta_o phi_o rc_list lgd_list
      cutoff tol).results = [] := by
  refine ⟨?_, ?_, ?_, ?_⟩ <;>
    simp [sweep_rc_d, h1, h2, List.isEmpty_eq_false.mpr h1]

/-- an oracle whose final polar angle ramps with rc, used by the C10
witness: it yields a Δθ sign change but a constant λ = 0, so exactly one
θ-candidate and no φ-candidate arise on a 2x2 grid. -/
def exOracleThetaRamp : Oracle := fun p =>
  { rc := p.rc, log_abs_d := p.log_abs_d, d_sign := true, theta_f := p.rc,
    phi_f := RVal.fin 0, lambda := RVal.fin 0, eta := RVal.fin 0,
    ray_status := RayStatus.NORMAL }

/-- witness for C10 on a concrete 2x2 grid with target θ = 1/2. -/
theorem sweep_theta_only_early_return_witness :
    (thetaRootsIdx ((sweepGrid exOracleThetaRamp (fun q => q)
        ⟨RVal.fin 0, RVal.fin 0, true⟩ (1/2) (wrap_phi 7 0) [0, 1] [0, 1]).map
        (fun row => row.map Cell.dth)) 2 2 ≠ []) ∧
    (sweep_rc_d exOracleThetaRamp (fun q => q) 7 (fun _ x => x)
        ⟨RVal.fin 0, RVal.fin 0, true⟩ (1/2) 0 [0, 1] [0, 1] 5 1).theta_roots
      = (thetaRootsIdx ((sweepGrid exOracleThetaRamp (fun q => q)
          ⟨RVal.fin 0, RVal.fin 0, true⟩ (1/2) (wrap_phi 7 0) [0, 1] [0, 1]).map
          (fun row => row.map Cell.dth)) 2 2).map
        (fun ij => (([0, 1] : List ℚ).getD ij.2 0, ([0, 1] : List ℚ).getD ij.1 0)) ∧
    (sweep_rc_d exOracleThetaRamp (fun q => q) 7 (fun _ x => x)
      ⟨RVal.fin 0, RVal.fin 0, true⟩ (1/2) 0 [0, 1] [0, 1] 5 1).phi_roots = [] ∧
    (sweep_rc_d exOracleThetaRamp (fun q => q) 7 (fun _ x => x)
      ⟨RVal.fin 0, RVal.fin 0, true⟩ (1/2) 0 [0, 1] [0, 1] 5 1).theta_roots_closest
      = [] ∧
    (sweep_rc_d exOracleThetaRamp (fun q => q) 7 (fun _ x => x)
      ⟨RVal.fin 0, RVal.fin 0, true⟩ (1/2) 0 [0, 1] [0, 1] 5 1).results = [] :=
  ⟨by with_unfolding_all decide,
    sweep_theta_only_early_return exOracleThetaRamp (fun q => q) 7 (fun _ x => x)
      ⟨RVal.fin 0, RVal.fin 0, true⟩ (1/2) 0 [0, 1] [0, 1] 5 1
      (by with_unfolding_all decide) (by with_unfolding_all decide)⟩

lemma eraseLoop_cons (xs : List α) (d : ℕ) (ds : List ℕ) :
    eraseLoop xs (d :: ds) = (eraseLoop xs ds).eraseIdx d := rfl

lemma eraseLoop_sublist (xs : List α) (ds : List ℕ) :
    (eraseLoop xs ds).Sublist xs := by
  induction ds with
  | nil => exact List.Sublist.refl xs
  | cons d ds ih => exact (List.eraseIdx_sublist _ d).trans ih

lemma map_eraseIdx (f : α → β) (xs : List α) (d : ℕ) :
    (xs.eraseIdx d).map f = (xs.map f).eraseIdx d := by
  induction xs generalizing d with
  | nil => simp
  | cons x xs ih =>
    cases d with
    | zero => simp [List.eraseIdx]
    | succ d => simp [List.eraseIdx, ih]

lemma eraseLoop_map (f : α → β) (xs : List α) (ds : List ℕ) :
    (eraseLoop xs ds).map f = eraseLoop (xs.map f) ds := by
  induction ds with
  | nil => rfl
  | cons d ds ih => rw [eraseLoop_cons, eraseLoop_cons, map_eraseIdx, ih]

lemma enum_keys_lt (l : List α) :
    List.Pairwise (fun p q : ℕ × α => p.1 < q.1) l.enum := by
  rw [List.pairwise_iff_getElem]
  intro i j hi hj hij
  rw [List.getElem_enum, List.getElem_enum]
  exact hij

lemma key_not_mem_eraseIdx (xs : List (ℕ × α)) (e : ℕ)
    (hmono : List.Pairwise (fun p q : ℕ × α => p.1 < q.1) xs)
    (y : α) (hy : xs[e]? = some (e, y)) :
    ∀ x, (e, x) ∉ xs.eraseIdx e := by
  intro x hmem
  obtain ⟨he, hye⟩ := List.getElem?_eq_some.mp hy
  obtain ⟨p, hp, hpe⟩ := List.getElem_of_mem hmem
  have hp? : (xs.eraseIdx e)[p]? = some (e, x) := by
    rw [List.getElem?_eq_getElem hp, hpe]
  rw [List.getElem?_eraseIdx] at hp?
  rw [List.pairwise_iff_getElem] at hmono
  by_cases hpe' : p < e
  · rw [if_pos hpe', List.getElem?_eq_some] at hp?
    obtain ⟨hplen, hpval⟩ := hp?
    have := hmono p e hplen he hpe'
    rw [hpval, hye] at this
    exact lt_irrefl e this
  · rw [if_neg hpe', List.getElem?_eq_some] at hp?
    obtain ⟨hplen, hpval⟩ := hp?
    have hlt : e < p + 1 := by omega
    have := hmono e (p + 1) he hplen hlt
    rw [hpval, hye] at this
    exact lt_irrefl e this

lemma key_not_mem_after_self_erase (l : List α) (ds : List ℕ) (k : ℕ)
    (hagree : (eraseLoop l.enum ds)[k]? = l.enum[k]?) :
    ∀ x, (k, x) ∉ (eraseLoop l.enum ds).eraseIdx k := by
  intro x
  cases henum : l.enum[k]? with
  | none =>
    intro hmem
    have hsubE : ((eraseLoop l.enum ds).eraseIdx k).Sublist l.enum :=
      (List.eraseIdx_sublist _ k).trans (eraseLoop_sublist _ ds)
    have hmem2 : (k, x) ∈ l.enum := hsubE.subset hmem
    rw [List.mk_mem_enum_iff_getElem?] at hmem2
    rw [List.getElem?_enum, hmem2] at henum
    cases henum
  | some pr =>
    have hk : k < l.enum.length := (List.getElem?_eq_some.mp henum).1
    have hkl : k < l.length := by simpa using hk
    have henum' : l.enum[k]? = some (k, l[k]) := by
      rw [List.getElem?_eq_getElem hk, List.getElem_enum]
    have hmonoE : List.Pairwise (fun p q : ℕ × α => p.1 < q.1)
        (eraseLoop l.enum ds) :=
      List.Pairwise.sublist (eraseLoop_sublist _ ds) (enum_keys_lt l)
    exact key_not_mem_eraseIdx _ k hmonoE (l[k]) (by rw [hagree, henum']) x

lemma eraseLoop_low_agree (l : List α) (e : ℕ) :
    ∀ (ds : List ℕ), (∀ f ∈ ds, e ≤ f) → ∀ k, k ≤ e →
      (eraseLoop l.enum ds)[k]? = l.enum[k]? ∨
      ∀ x, (k, x) ∉ eraseLoop l.enum ds := by
  intro ds
  induction ds with
  | nil =>
    intro _ k _
    exact Or.inl rfl
  | cons f ds ih =>
    intro hall k hk
    have hf : e ≤ f := hall f (List.mem_cons_self f ds)
    have hall' : ∀ g ∈ ds, e ≤ g := fun g hg => hall g (List.mem_cons_of_mem f hg)
    rw [eraseLoop_cons]
    rcases ih hall' k hk with h | h
    · by_cases hkf : k < f
      · left
        rw [List.getElem?_eraseIdx, if_pos hkf, h]
      · have hke : k = f := by omega
        right
        subst hke
        exact key_not_mem_after_self_erase l ds k h
    · right
      intro x hmem
      exact h x ((List.eraseIdx_sublist _ f).subset hmem)

lemma eraseLoop_removes_sorted (l : List α) :
    ∀ (ds : List ℕ), List.Sorted (· ≤ ·) ds →
      ∀ d ∈ ds, ∀ x, (d, x) ∉ eraseLoop l.enum ds := by
  intro ds
  induction ds with
  | nil =>
    intro _ d hd
    cases hd
  | cons e ds ih =>
    intro hsort d hd x
    have hall : ∀ f ∈ ds, e ≤ f := fun f hf => (List.sorted_cons.mp hsort).1 f hf
    have hsort' := (List.sorted_cons.mp hsort).2
    rw [eraseLoop_cons]
    rcases List.mem_cons.mp hd with rfl | hd'
    · rcases eraseLoop_low_agree l d ds hall d le_rfl with h | h
      · exact key_not_mem_after_self_erase l ds d h x
      · intro hmem
        exact h x ((List.eraseIdx_sublist _ d).subset hmem)
    · intro hmem
      exact ih hsort' d hd' x ((List.eraseIdx_sublist _ e).subset hmem)

lemma find?_eq_some_split (p : α → Bool) :
    ∀ (xs : List α) (a : α), xs.find? p = some a →
      ∃ us vs, xs = us ++ a :: vs ∧ ∀ u ∈ us, p u = false := by
  intro xs
  induction xs with
  | nil =>
    intro a h
    cases h
  | cons x xs ih =>
    intro a h
    by_cases hx : p x = true
    · rw [List.find?_cons_of_pos _ hx] at h
      injection h with h
      subst h
      refine ⟨[], xs, rfl, ?_⟩
      intro u hu
      cases hu
    · rw [List.find?_cons_of_neg _ hx] at h
      obtain ⟨us, vs, hsplit, hus⟩ := ih a h
      refine ⟨x :: us, vs, by rw [hsplit, List.cons_append], ?_⟩
      intro u hu
      rcases List.mem_cons.mp hu with rfl | hu'
      · exact Bool.eq_false_iff.mpr hx
      · exact hus u hu'

lemma firstDupAfter_between (tol : ℚ) (l : List FRTResult) (a b : ℕ)
    (x y : FRTResult) (hxa : l[a]? = some x) (hyb : l[b]? = some y)
    (hab : a < b) (hdup : isDup tol x y = true)
    (hnotb : firstDupAfter tol l a ≠ some b) :
    ∃ c z, a < c ∧ c < b ∧ l[c]? = some z ∧ isDup tol x z = true := by
  have hblen : b < l.length := (List.getElem?_eq_some.mp hyb).1
  have hbmem : b ∈ List.range' (a + 1) (l.length - (a + 1)) := by
    rw [List.mem_range'_1]
    omega
  have hpb : (fun j => match l[a]?, l[j]? with
      | some u, some v => isDup tol u v
      | _, _ => false) b = true := by
    simp only [hxa, hyb]
    exact hdup
  have hsome : ((List.range' (a + 1) (l.length - (a + 1))).find?
      (fun j => match l[a]?, l[j]? with
        | some u, some v => isDup tol u v
        | _, _ => false)).isSome = true := by
    rw [List.find?_isSome]
    exact ⟨b, hbmem, hpb⟩
  obtain ⟨c, hc⟩ := Option.isSome_iff_exists.mp hsome
  have hcp := List.find?_some hc
  have hcmem := List.mem_of_find?_eq_some hc
  have hcb : c ≠ b := by
    intro hcon
    subst hcon
    exact hnotb hc
  obtain ⟨us, vs, hsplit, hus⟩ := find?_eq_some_split _ _ c hc
  have hclt : c < b := by
    have hbsplit : b ∈ us ++ c :: vs := by
      rw [← hsplit]
      exact hbmem
    rcases List.mem_append.mp hbsplit with hbus | hbcv
    · have hpb2 : (match l[a]?, l[b]? with
          | some u, some v => isDup tol u v
          | _, _ => false) = true := hpb
      rw [hus b hbus] at hpb2
      cases hpb2
    · rcases List.mem_cons.mp hbcv with hbc | hbvs
      · exact absurd hbc.symm hcb
      · have hpw : List.Pairwise (· < ·)
            (List.range' (a + 1) (l.length - (a + 1))) :=
          List.pairwise_lt_range' _ _
        rw [hsplit] at hpw
        have h2 := (List.pairwise_append.mp hpw).2.1
        exact (List.pairwise_cons.mp h2).1 b hbvs
  have hac : a < c := by
    have := List.mem_range'_1.mp hcmem
    omega
  cases hlc : l[c]? with
  | none =>
    rw [hxa, hlc] at hcp
    cases hcp
  | some z =>
    rw [hxa, hlc] at hcp
    exact ⟨c, z, hac, hclt, hlc, hcp⟩

lemma not_mem_duplicatedIndex (tol : ℚ) (l : List FRTResult) (b : ℕ)
    (hb : b ∉ duplicatedIndex tol l) (a : ℕ) (ha : a < l.length) :
    firstDupAfter tol l a ≠ some b := by
  intro hcon
  apply hb
  rw [duplicatedIndex, List.mem_filterMap]
  exact ⟨a, List.mem_range.mpr ha, hcon⟩

/-- C1 (amended): a surviving entry is never the first in-tolerance
successor of any earlier entry; hence whenever two surviving entries of the
deduplicated list are within tolerance of each other, the earlier one has
another in-tolerance partner strictly between the two in the
pre-deduplication list. -/
theorem dedup_no_survivor_is_first_match (tol : ℚ) (l : List FRTResult)
    (p q : ℕ) (x y : FRTResult)
    (hp : (dedupResults tol l)[p]? = some x)
    (hq : (dedupResults tol l)[q]? = some y)
    (hpq : p < q) (hdup : isDup tol x y = true) :
    ∃ a c b : ℕ, a < c ∧ c < b ∧ l[a]? = some x ∧ l[b]? = some y ∧
      ∃ z, l[c]? = some z ∧ isDup tol x z = true := by
  have hF : dedupResults tol l =
      (eraseLoop l.enum (List.insertionSort (· ≤ ·) (duplicatedIndex tol l))).map
        Prod.snd := by
    rw [dedupResults, eraseLoop_map, List.enum_map_snd]
  rw [hF, List.getElem?_map] at hp hq
  obtain ⟨pr, hpr, hprx⟩ := Option.map_eq_some'.mp hp
  obtain ⟨qr, hqr, hqry⟩ := Option.map_eq_some'.mp hq
  obtain ⟨a, x2⟩ := pr
  obtain ⟨b, y2⟩ := qr
  dsimp only at hprx hqry
  subst hprx
  subst hqry
  have hsub := eraseLoop_sublist l.enum
    (List.insertionSort (· ≤ ·) (duplicatedIndex tol l))
  obtain ⟨hplen, hpelem⟩ := List.getElem?_eq_some.mp hpr
  obtain ⟨hqlen, hqelem⟩ := List.getElem?_eq_some.mp hqr
  have hprmem : (a, x2) ∈ eraseLoop l.enum
      (List.insertionSort (· ≤ ·) (duplicatedIndex tol l)) :=
    hpelem ▸ List.getElem_mem hplen
  have hqrmem : (b, y2) ∈ eraseLoop l.enum
      (List.insertionSort (· ≤ ·) (duplicatedIndex tol l)) :=
    hqelem ▸ List.getElem_mem hqlen
  have hla : l[a]? = some x2 := by
    have hmem := hsub.subset hprmem
    exact List.mk_mem_enum_iff_getElem?.mp hmem
  have hlb : l[b]? = some y2 := by
    have hmem := hsub.subset hqrmem
    exact List.mk_mem_enum_iff_getElem?.mp hmem
  have hab : a < b := by
    have hmono := List.Pairwise.sublist hsub (enum_keys_lt l)
    rw [List.pairwise_iff_getElem] at hmono
    have := hmono p q hplen hqlen hpq
    rw [hpelem, hqelem] at this
    exact this
  have hsort : List.Sorted (· ≤ ·)
      (List.insertionSort (· ≤ ·) (duplicatedIndex tol l)) :=
    List.sorted_insertionSort (· ≤ ·) (duplicatedIndex tol l)
  have hbds : b ∉ List.insertionSort (· ≤ ·) (duplicatedIndex tol l) := by
    intro hbds
    exact eraseLoop_removes_sorted l _ hsort b hbds y2 hqrmem
  have hbdup : b ∉ duplicatedIndex tol l := by
    intro hcon
    exact hbds ((List.perm_insertionSort (· ≤ ·) (duplicatedIndex tol l)).mem_iff.mpr
      hcon)
  have halen : a < l.length := (List.getElem?_eq_some.mp hla).1
  have hnotb := not_mem_duplicatedIndex tol l b hbdup a halen
  obtain ⟨c, z, hac, hcb, hlc, hdupz⟩ :=
    firstDupAfter_between tol l a b x2 y2 hla hlb hab hdup hnotb
  exact ⟨a, c, b, hac, hcb, hla, hlb, z, hlc, hdupz⟩

/-- first refined root of the C1 counterexample: (rc, log|d|) = (0, 0). -/
def exRootA : FRTResult :=
  { (default : FRTResult) with rc := RVal.fin 0, log_abs_d := RVal.fin 0 }

/-- second refined root of the C1 counterexample: (rc, log|d|) = (9/10, 0). -/
def exRootB : FRTResult :=
  { (default : FRTResult) with rc := RVal.fin (9 / 10), log_abs_d := RVal.fin 0 }

/-- third refined root of the C1 counterexample: (rc, log|d|) = (-9/10, 0). -/
def exRootC : FRTResult :=
  { (default : FRTResult) with rc := RVal.fin (-9 / 10), log_abs_d := RVal.fin 0 }

/-- the C1 counterexample refinement output. -/
def exDupList : List FRTResult := [exRootA, exRootB, exRootC]

/-- C1 counterexample: at tol = 1 the list `exDupList` deduplicates to
`[exRootA, exRootC]`, yet those two surviving entries are still duplicates
of each other (|Δrc| = 9/10 < 1, |Δlog|d|| = 0 < 1): entry 0's first match
was entry 1, so entry 2 was never compared against entry 0. -/
theorem dedup_counterexample :
    dedupResults 1 exDupList = [exRootA, exRootC] ∧
    isDup 1 exRootA exRootC = true := by
  with_unfolding_all decide

/-- witness for the amended C1 theorem at the counterexample list. -/
theorem dedup_no_survivor_is_first_match_witness :
    (dedupResults 1 exDupList)[0]? = some exRootA ∧
    (dedupResults 1 exDupList)[1]? = some exRootC ∧
    (0 : ℕ) < 1 ∧ isDup 1 exRootA exRootC = true ∧
    (∃ a c b : ℕ, a < c ∧ c < b ∧ exDupList[a]? = some exRootA ∧
      exDupList[b]? = some exRootC ∧
      ∃ z, exDupList[c]? = some z ∧ isDup 1 exRootA z = true) :=
  ⟨by with_unfolding_all decide, by with_unfolding_all decide, by decide,
    by with_unfolding_all decide,
    dedup_no_survivor_is_first_match 1 exDupList 0 1 exRootA exRootC
      (by with_unfolding_all decide) (by with_unfolding_all decide) (by decide)
      (by with_unfolding_all decide)⟩
